import Mathlib

/-!
Shallow embedding of `src/nassa/analyses/utils/heatmaps.py` (layout engine of
the nassa heatmap rendering module): canonical axis ordering (`get_axes`),
table reordering (`reorder_labels`), the split-triangle tessellation built in
`arlequin_plot`, the right-outer key expansion of `bconf_heatmap`, the
index reordering and tick computation of `correlation_plot`, and the category
column added by `basepair_plot`.

Tables are modelled as lists of rows; a row of a single-key statistics table is
a pair `(key, payload)` with an integer payload standing for the numeric
column(s).  Python string formatting (`f"{base}C"`) is string concatenation,
and `b.join(f)` for strings is `String.intercalate b` over the characters
of `f`.
-/

set_option maxRecDepth 8000

namespace Nassa

/-- Python `b.join(f)` on strings: the characters of `f` interleaved with `b`. -/
def strJoin (b f : String) : String :=
  String.intercalate b (f.data.map Char.toString)

/-- The hard-coded label list of `get_axes` (heatmaps.py lines 15-31):
`[f"{base}{base}", f"{base}C", f"C{base}", "CC", f"G{base}", "GC", f"A{base}",
"AC", f"{base}G", f"{base}A", "CG", "CA", "GG", "GA", "AG", "AA"]`. -/
def yaxisOf (base : String) : List String :=
  [base ++ base, base ++ "C", "C" ++ base, "CC",
   "G" ++ base, "GC", "A" ++ base, "AC",
   base ++ "G", base ++ "A", "CG", "CA",
   "GG", "GA", "AG", "AA"]

/-- Embedding of `get_axes(subunit_len, base)` (heatmaps.py lines 12-41).  For
`subunit_len == 4` the x axis is the reversed y axis; for `subunit_len == 3`
it is `f"G A C {base}".split()`; for any other length the Python code leaves
`xaxis` unassigned and raises `UnboundLocalError` at the comprehension on
line 40, modelled here as `none`.  The tetramer order is
`[b.join(f) for f in yaxis for b in xaxis]`. -/
def get_axes (subunit_len : Nat) (base : String) :
    Option (List String × List String × List String) :=
  let yaxis := yaxisOf base
  let xaxis? : Option (List String) :=
    if subunit_len = 4 then some yaxis.reverse
    else if subunit_len = 3 then some ["G", "A", "C", base]
    else none
  xaxis?.map fun xaxis =>
    (xaxis, yaxis, yaxis.flatMap fun f => xaxis.map fun b => strJoin b f)

/-- The row order published in the source paper, as the spec lists it
(spec-side literal, for comparison with `get_axes`). -/
def publishedRow : List String :=
  ["TT", "TC", "CT", "CC", "GT", "GC", "AT", "AC",
   "TG", "TA", "CG", "CA", "GG", "GA", "AG", "AA"]

/-- Spec-side key construction: insert the column label `c` between the two
symbols of the 2-symbol row label `r`. -/
def insertBetween (c r : String) : String :=
  match r.data with
  | [a, b] => String.mk [a] ++ c ++ String.mk [b]
  | _ => r

/-- Rank lookup built by `reorder_labels` line 46:
`dict(zip(tetramer_order, range(len(tetramer_order))))` maps each key to its
position in the order; for a duplicated key the dict keeps the last position.
A key absent from the order maps to `none` (pandas `Series.map` yields NaN). -/
def pyRank (order : List String) (k : String) : Option Nat :=
  ((order.enum.reverse).find? (fun p => p.2 == k)).map (·.1)

/-- Comparison used to sort rows by the `subunit_rank` column: NaN
(a key absent from the order, modelled `none`) sorts after every rank,
matching pandas `sort_values` with its default `na_position="last"`. -/
def rankLe : Option Nat → Option Nat → Bool
  | some x, some y => x ≤ y
  | some _, none => true
  | none, some _ => false
  | none, none => true

/-- The dataframe after `reorder_labels` line 47
(`df["subunit_rank"] = df[subunit_name].map(sorted_index)`): each original
row `(key, payload)` extended with its rank.  Because the column assignment
mutates the caller's object in place and the later local reassignments
(`df = df.sort_values(...)` etc.) do not undo it, this is also the state of
the caller's dataframe after `reorder_labels` returns. -/
def rankedRows (df : List (String × Int)) (order : List String) :
    List ((String × Int) × Option Nat) :=
  df.map fun r => (r, pyRank order r.1)

/-- Embedding of `reorder_labels(df, subunit_name, tetramer_order)`
(heatmaps.py lines 44-51): attach the rank column, sort rows by it with
absent keys last, drop the rank column, reset the index.  The sort is
modelled as a stable insertion sort by rank (pandas `sort_values` leaves the
relative order of equal ranks unspecified; ranks are distinct whenever the
table's keys are, so the choice of a stable sort only fixes that loose end). -/
def reorder_labels (df : List (String × Int)) (order : List String) :
    List (String × Int) :=
  (List.insertionSort (fun a b => rankLe a.2 b.2 = true)
    (rankedRows df order)).map (·.1)

/-- Flattened lattice index used by the tessellation in `arlequin_plot`:
row-major over an `(M+1)`-column lattice, `index = i + j*(M+1)`. -/
def flatIdx (M i j : Nat) : Nat :=
  i + j * (M + 1)

/-- Upper-triangle index list of `arlequin_plot` (heatmaps.py lines 84-85):
`[(i + j*(M+1), i+1 + j*(M+1), i+1 + (j+1)*(M+1)) for j in range(N) for i in
range(M)]`. -/
def upper_triangle (M N : Nat) : List (Nat × Nat × Nat) :=
  (List.range N).flatMap fun j => (List.range M).map fun i =>
    (i + j * (M + 1), i + 1 + j * (M + 1), i + 1 + (j + 1) * (M + 1))

/-- Lower-triangle index list of `arlequin_plot` (heatmaps.py lines 86-87):
`[(i + j*(M+1), i+1 + (j+1)*(M+1), i + (j+1)*(M+1)) for j in range(N) for i
in range(M)]`. -/
def lower_triangle (M N : Nat) : List (Nat × Nat × Nat) :=
  (List.range N).flatMap fun j => (List.range M).map fun i =>
    (i + j * (M + 1), i + 1 + (j + 1) * (M + 1), i + (j + 1) * (M + 1))

/-- The hard-coded axis list of `bconf_heatmap` (heatmaps.py lines 132-148);
`yaxis` on line 149 is a copy of the same list. -/
def bconf_xaxis (base : String) : List String :=
  ["GG", "GA", "AG", "AA", "GC", "G" ++ base, "A" ++ base, "AC",
   "CA", base ++ "A", base ++ "G", "CG", "CC", "C" ++ base,
   base ++ "C", base ++ base]

/-- Canonical 256-key tetramer order of `bconf_heatmap` (lines 150-152):
`[b.join(f) for f in yaxis for b in xaxis]` with `yaxis = xaxis.copy()`. -/
def bconf_tetramer_order (base : String) : List String :=
  (bconf_xaxis base).flatMap fun f => (bconf_xaxis base).map fun b => strJoin b f

/-- Embedding of `df.merge(tetramer_order, how="right", on="tetramer")`
(heatmaps.py line 153): one output row per right-frame key, in right-frame
order; a key with no match in `df` yields a sentinel row (`none`, pandas NaN),
a key with matches yields those rows' payloads. -/
def merge_right (df : List (String × Int)) (keys : List String) :
    List (String × Option Int) :=
  keys.flatMap fun k =>
    match df.filter (fun r => r.1 == k) with
    | [] => [(k, none)]
    | ms => ms.map fun r => (r.1, some r.2)

/-- Embedding of `data.loc[coordinates]` in `correlation_plot` (line 197) on a
two-level row index modelled as a list of (coordinate, unit) pairs: rows are
selected per coordinate label in list order, keeping original relative order
within each label. -/
def select_outer (coords : List String) (idx : List (String × String)) :
    List (String × String) :=
  coords.flatMap fun c => idx.filter (fun p => p.1 == c)

/-- Lexicographic strict comparison of character lists by code point, the
order Python uses on strings. -/
def charListLt : List Char → List Char → Bool
  | [], [] => false
  | [], _ :: _ => true
  | _ :: _, [] => false
  | a :: as, b :: bs =>
      if a.val.toNat < b.val.toNat then true
      else if b.val.toNat < a.val.toNat then false
      else charListLt as bs

/-- Python string `<`. -/
def strLtB (a b : String) : Bool :=
  charListLt a.data b.data

/-- Python string `<=`. -/
def strLeB (a b : String) : Bool :=
  strLtB a b || a == b

/-- Key order of pandas `sort_index(level=1)` with its default
`sort_remaining=True`: lexicographic on (level 1, level 0), i.e. primarily by
the inner unit, then by the outer coordinate. -/
def unitCoordLeB (a b : String × String) : Bool :=
  if a.2 == b.2 then strLeB a.1 b.1 else strLtB a.2 b.2

/-- Embedding of `.sort_index(level=1, axis=0)` (heatmaps.py lines 197-198)
on the row index: sort the (coordinate, unit) pairs by unit first, then
coordinate (`sort_remaining=True` appends the remaining level as a secondary
key). -/
def sort_level1 (idx : List (String × String)) : List (String × String) :=
  List.insertionSort (fun a b => unitCoordLeB a b = true) idx

/-- Row order of the full combined correlation matrix produced by
`correlation_plot` lines 196-198 (`data.loc[coordinates][coordinates]
.sort_index(level=1, axis=0).sort_index(level=1, axis=1)`); the column order
is the same computation on the column index. -/
def corr_row_order (coords : List String) (idx : List (String × String)) :
    List (String × String) :=
  sort_level1 (select_outer coords idx)

/-- Embedding of `np.arange(start, stop, step)` on non-negative integers. -/
def np_arange (start stop step : Nat) : List Nat :=
  if start < stop then
    (List.range ((stop - start + step - 1) / step)).map fun m => start + m * step
  else []

/-- Tick positions of the combined correlation matrix (heatmaps.py lines
242-244): `start = len(data) // (2 * len(coordinates))`, `step = 2 * start`,
`locs = np.arange(start, len(data) - 1, step)`, with `M = len(data)` and
`K = len(coordinates)`. -/
def corr_ticks (M K : Nat) : List Nat :=
  let s := M / (2 * K)
  np_arange s (M - 1) (2 * s)

/-- Python slice `s[1:3]` used by `basepair_plot` line 276 to extract the
basepair-step category. -/
def pySlice13 (s : String) : String :=
  String.mk ((s.data.drop 1).take 2)

/-- The caller's dataframe after `basepair_plot(data, ...)` returns: line 277
(`data["category"] = category`) mutates the caller's object in place, adding
the category column; the later `data = data.drop("category", axis=1)` only
rebinds the local name. -/
def basepair_plot_caller (data : List (String × Int)) :
    List ((String × Int) × String) :=
  data.map fun r => (r, pySlice13 r.1)

/-- Claim-side predicate for the frame condition on `reorder_labels`: the
caller's table after the call carries no trace of the helper rank column,
i.e. it is the original rows with no rank value attached. -/
def reorder_input_unchanged (df : List (String × Int)) (order : List String) :
    Prop :=
  rankedRows df order = df.map fun r => (r, (none : Option Nat))

/-! ## Helper lemmas -/

/-- Length of a grid-shaped list comprehension
`[g j i for j in range(N) for i in range(M)]`. -/
lemma length_grid {α : Type} (g : Nat → Nat → α) (M N : Nat) :
    ((List.range N).flatMap fun j => (List.range M).map (g j)).length = N * M := by
  induction N with
  | zero => simp
  | succ n ih =>
      rw [List.range_succ, List.flatMap_append, List.length_append, ih]
      simp [Nat.succ_mul]

/-- Element `j*M + i` of the grid-shaped comprehension is `g j i`. -/
lemma getElem?_grid {α : Type} (g : Nat → Nat → α) (M N i j : Nat)
    (hi : i < M) (hj : j < N) :
    ((List.range N).flatMap fun j => (List.range M).map (g j))[j * M + i]? =
      some (g j i) := by
  induction N with
  | zero => omega
  | succ n ih =>
      rw [List.range_succ, List.flatMap_append]
      rcases Nat.lt_succ_iff_lt_or_eq.mp hj with h | rfl
      · rw [List.getElem?_append]
        have hlen :
            ((List.range n).flatMap fun j => (List.range M).map (g j)).length
              = n * M := length_grid g M n
        have hlt : j * M + i < n * M := by
          have h1 : j * M + M ≤ n * M := by
            have := Nat.succ_le_of_lt h
            calc j * M + M = (j + 1) * M := by ring
              _ ≤ n * M := Nat.mul_le_mul_right M this
          omega
        rw [if_pos (by omega)]
        exact ih h
      · have hlen :
            ((List.range j).flatMap fun k => (List.range M).map (g k)).length
              = j * M := length_grid g M j
        rw [List.getElem?_append_right (by omega)]
        rw [hlen, Nat.add_sub_cancel_left]
        simp only [List.flatMap_cons, List.flatMap_nil, List.append_nil]
        rw [List.getElem?_map, List.getElem?_range hi]
        rfl

/-- A flatMap whose blocks all have length one has the length of its key
list. -/
lemma length_flatMap_one {α β : Type} (keys : List α) (g : α → List β)
    (h : ∀ k ∈ keys, (g k).length = 1) :
    (keys.flatMap g).length = keys.length := by
  induction keys with
  | nil => simp
  | cons a t ih =>
      rw [List.flatMap_cons, List.length_append, h a (by simp),
        ih fun k hk => h k (by simp [hk]), List.length_cons]
      omega

/-- In a table whose key column has no duplicates, at most one row matches a
given key. -/
lemma filter_key_len_le_one (df : List (String × Int)) (k : String)
    (h : (df.map (·.1)).Nodup) :
    (df.filter (fun r => r.1 == k)).length ≤ 1 := by
  induction df with
  | nil => simp
  | cons a t ih =>
      rw [List.map_cons, List.nodup_cons] at h
      by_cases hk : a.1 = k
      · rw [List.filter_cons_of_pos (by simp [hk])]
        have : t.filter (fun r => r.1 == k) = [] := by
          rw [List.filter_eq_nil_iff]
          intro r hr hrk
          exact absurd (List.mem_map_of_mem (·.1) hr)
            (by simpa [hk, ← (by simpa using hrk : r.1 = k)] using h.1)
        simp [this]
      · rw [List.filter_cons_of_neg (by simp [hk])]
        exact ih h.2

/-- Totality of the rank comparison. -/
lemma rankLe_total (a b : Option Nat) : rankLe a b = true ∨ rankLe b a = true := by
  cases a <;> cases b <;> simp [rankLe] <;> omega

/-- Transitivity of the rank comparison. -/
lemma rankLe_trans (a b c : Option Nat) (h1 : rankLe a b = true)
    (h2 : rankLe b c = true) : rankLe a c = true := by
  cases a <;> cases b <;> cases c <;> simp [rankLe] at * <;> omega

/-- Every element of the ranked dataframe carries the rank of its own key. -/
lemma rankedRows_snd (df : List (String × Int)) (order : List String) :
    ∀ x ∈ rankedRows df order, x.2 = pyRank order x.1.1 := by
  intro x hx
  obtain ⟨r, _, rfl⟩ := List.mem_map.mp hx
  rfl

/-! ## Claim theorems -/

/-- C1: for context length 4 and flexible symbol "T", `get_axes` returns the
published row order TT, TC, CT, CC, GT, GC, AT, AC, TG, TA, CG, CA, GG, GA,
AG, AA as the y axis, its reverse as the x (column) axis, and a tetramer
order of 16 × 16 = 256 keys obtained by iterating the row order in the outer
loop and the column order in the inner loop, each key formed by inserting the
column label between the two symbols of the row label. -/
theorem get_axes_published_layout :
    get_axes 4 "T" = some (publishedRow.reverse, publishedRow,
      publishedRow.flatMap fun r => publishedRow.reverse.map fun c =>
        insertBetween c r) ∧
    (publishedRow.flatMap fun r => publishedRow.reverse.map fun c =>
      insertBetween c r).length = 16 * 16 := by
  constructor
  · decide
  · decide

/-- C3 counterexample: the claim quantifies over every flexible-symbol choice
from the 4-letter alphabet, but for `base = "C"` the length-4 row order
produced by `get_axes` contains the key "CC" twice (`f"{base}C"` and the
literal `"CC"`), so it is not duplicate-free. -/
theorem get_axes_dup_for_base_C :
    get_axes 4 "C" = some ((yaxisOf "C").reverse, yaxisOf "C",
      (yaxisOf "C").flatMap fun f => (yaxisOf "C").reverse.map fun b =>
        strJoin b f) ∧
    ¬ (yaxisOf "C").Nodup := by
  constructor
  · decide
  · decide

/-- C3 amended: for the default flexible symbol "T" (the only alphabet choice
that avoids clashes with the hard-coded C/G/A entries), the length-4 row and
column orders have no duplicate keys and 16 entries each, and the length-3
column order `["G","A","C","T"]` has no duplicates and 4 entries; a
duplicate-free order makes the key-to-position rank map a bijection over its
entries. -/
theorem axis_orders_nodup_base_T :
    ((yaxisOf "T").Nodup ∧ (yaxisOf "T").length = 16) ∧
    ((yaxisOf "T").reverse.Nodup ∧ (yaxisOf "T").reverse.length = 16) ∧
    (get_axes 3 "T" = some ((["G", "A", "C", "T"] : List String), yaxisOf "T",
      (yaxisOf "T").flatMap fun f =>
        (["G", "A", "C", "T"] : List String).map fun b => strJoin b f) ∧
      (["G", "A", "C", "T"] : List String).Nodup ∧
      (["G", "A", "C", "T"] : List String).length = 4) := by
  refine ⟨⟨by decide, by decide⟩, ⟨by decide, by decide⟩, by decide, by decide,
    by decide⟩

/-- C8 counterexample: the claim says `get_axes` succeeds for every context
length in {2, 3, 4}, but for length 2 neither branch assigns `xaxis` and the
function fails (Python raises `UnboundLocalError`), modelled as `none`. -/
theorem get_axes_fails_for_len_two : get_axes 2 "T" = none := by
  decide

/-- C8 amended: `get_axes` returns a canonical axis order exactly for context
lengths 3 and 4; for every other length — including the nominally supported
length 2 — it fails (an `UnboundLocalError` from the unassigned axis
variable rather than a deliberate configuration-error signal). -/
theorem get_axes_supported_lengths (len : Nat) (base : String) :
    (len = 3 ∨ len = 4 → (get_axes len base).isSome = true) ∧
    (len ≠ 3 → len ≠ 4 → get_axes len base = none) := by
  constructor
  · rintro (rfl | rfl) <;> simp [get_axes]
  · intro h3 h4
    simp [get_axes, h3, h4]

/-- Witness for the C8 amended theorem at the concrete lengths 3 and 5. -/
theorem get_axes_supported_lengths_witness :
    (get_axes 3 "T").isSome = true ∧ get_axes 5 "T" = none :=
  ⟨(get_axes_supported_lengths 3 "T").1 (Or.inl rfl),
   (get_axes_supported_lengths 5 "T").2 (by decide) (by decide)⟩

/-- C2: for positive grid extents (M, N) the tessellation of `arlequin_plot`
produces exactly M*N upper and M*N lower triangles; every lattice index
referenced lies in `[0, (M+1)*(N+1))`; the triangle pair of unit cell (i, j)
sits at position `j*M + i` and consists of the flattened corners
{(i,j), (i+1,j), (i+1,j+1)} (upper) and {(i,j), (i+1,j+1), (i,j+1)} (lower)
under `index = i + j*(M+1)`; and for M = 2, N = 1 the upper triangle of cell
(0, 0) has flat indices (0, 1, 4). -/
theorem tessellation_layout (M N i j : Nat) (hi : i < M) (hj : j < N) :
    (upper_triangle M N).length = M * N ∧
    (lower_triangle M N).length = M * N ∧
    (∀ t ∈ upper_triangle M N, t.1 < (M + 1) * (N + 1) ∧
      t.2.1 < (M + 1) * (N + 1) ∧ t.2.2 < (M + 1) * (N + 1)) ∧
    (∀ t ∈ lower_triangle M N, t.1 < (M + 1) * (N + 1) ∧
      t.2.1 < (M + 1) * (N + 1) ∧ t.2.2 < (M + 1) * (N + 1)) ∧
    (upper_triangle M N)[j * M + i]? =
      some (flatIdx M i j, flatIdx M (i + 1) j, flatIdx M (i + 1) (j + 1)) ∧
    (lower_triangle M N)[j * M + i]? =
      some (flatIdx M i j, flatIdx M (i + 1) (j + 1), flatIdx M i (j + 1)) ∧
    (upper_triangle 2 1)[0]? = some (0, 1, 4) := by
  refine ⟨?_, ?_, ?_, ?_, ?_, ?_, by decide⟩
  · exact (length_grid _ M N).trans (Nat.mul_comm N M)
  · exact (length_grid _ M N).trans (Nat.mul_comm N M)
  · intro t ht
    simp only [upper_triangle, List.mem_flatMap, List.mem_map,
      List.mem_range] at ht
    obtain ⟨j', hj', i', hi', rfl⟩ := ht
    refine ⟨by nlinarith, by nlinarith, by nlinarith⟩
  · intro t ht
    simp only [lower_triangle, List.mem_flatMap, List.mem_map,
      List.mem_range] at ht
    obtain ⟨j', hj', i', hi', rfl⟩ := ht
    refine ⟨by nlinarith, by nlinarith, by nlinarith⟩
  · exact getElem?_grid _ M N i j hi hj
  · exact getElem?_grid _ M N i j hi hj

/-- Witness for C2 at M = 2, N = 1, cell (0, 0). -/
theorem tessellation_layout_witness :
    (0 : Nat) < 2 ∧ (0 : Nat) < 1 ∧
    (upper_triangle 2 1).length = 2 * 1 ∧
    (upper_triangle 2 1)[0]? = some (0, 1, 4) := by
  have h := tessellation_layout 2 1 0 0 (by decide) (by decide)
  exact ⟨by decide, by decide, h.1, h.2.2.2.2.2.2⟩

/-- C4 counterexample: the claim says a table containing a key absent from
the supplied axis order makes `reorder_labels` raise `DataMismatchError`, but
the code defines no such error and raises nothing: the row keyed "XX",
absent from the order `["TT"]`, is silently given rank NaN and sorted to the
end of the returned table. -/
theorem reorder_labels_no_missing_key_error :
    reorder_labels [("XX", 1), ("TT", 2)] ["TT"] = [("TT", 2), ("XX", 1)] := by
  decide

/-- C4 amended: `reorder_labels` raises no error on keys absent from the axis
order; such rows are retained in the returned table (their rank is NaN, so
the sort places them after all rows whose keys are in the order). -/
theorem reorder_labels_retains_absent (df : List (String × Int))
    (order : List String) (r : String × Int) (hr : r ∈ df)
    (hnone : pyRank order r.1 = none) :
    r ∈ reorder_labels df order := by
  unfold reorder_labels
  refine List.mem_map.mpr ⟨(r, pyRank order r.1), ?_, rfl⟩
  rw [List.mem_insertionSort]
  exact List.mem_map.mpr ⟨r, hr, rfl⟩

/-- Witness for the C4 amended theorem. -/
theorem reorder_labels_retains_absent_witness :
    ("XX", (1 : Int)) ∈ ([("XX", 1)] : List (String × Int)) ∧
    pyRank [] "XX" = none ∧
    ("XX", (1 : Int)) ∈ reorder_labels [("XX", 1)] [] :=
  ⟨by decide, by decide,
   reorder_labels_retains_absent [("XX", 1)] [] ("XX", 1) (by decide)
     (by decide)⟩

/-- The rows produced by `reorder_labels` are pairwise ordered by the rank of
their keys (absent keys compare above every rank). -/
lemma reorder_labels_rank_sorted (df : List (String × Int))
    (order : List String) :
    List.Pairwise
      (fun a b : String × Int =>
        rankLe (pyRank order a.1) (pyRank order b.1) = true)
      (reorder_labels df order) := by
  unfold reorder_labels
  rw [List.pairwise_map]
  haveI : IsTotal ((String × Int) × Option Nat)
      (fun a b => rankLe a.2 b.2 = true) := ⟨fun a b => rankLe_total a.2 b.2⟩
  haveI : IsTrans ((String × Int) × Option Nat)
      (fun a b => rankLe a.2 b.2 = true) :=
    ⟨fun a b c => rankLe_trans a.2 b.2 c.2⟩
  have hs := List.sorted_insertionSort
    (fun a b : (String × Int) × Option Nat => rankLe a.2 b.2 = true)
    (rankedRows df order)
  refine List.Pairwise.imp_of_mem ?_ hs
  intro a b ha hb hab
  rw [List.mem_insertionSort] at ha hb
  rwa [rankedRows_snd df order a ha, rankedRows_snd df order b hb] at hab

/-- C10: `reorder_labels` returns a permutation of its input rows — no row is
dropped, added or altered, and the helper rank column is dropped from the
output — and every row whose key is absent from the supplied order is placed
after all rows whose keys are present: once a row with an unranked key
appears, every later row is also unranked. -/
theorem reorder_labels_permutation (df : List (String × Int))
    (order : List String) :
    (reorder_labels df order).Perm df ∧
    ∀ (a b : Nat) (ra rb : String × Int), a < b →
      (reorder_labels df order)[a]? = some ra →
      (reorder_labels df order)[b]? = some rb →
      pyRank order ra.1 = none → pyRank order rb.1 = none := by
  constructor
  · have h := (List.perm_insertionSort
      (fun a b : (String × Int) × Option Nat => rankLe a.2 b.2 = true)
      (rankedRows df order)).map (·.1)
    have h2 : (rankedRows df order).map (·.1) = df := by
      simp [rankedRows, List.map_map, Function.comp_def]
    rwa [h2] at h
  · intro a b ra rb hab ha hb hnone
    have hp := reorder_labels_rank_sorted df order
    rw [List.pairwise_iff_getElem] at hp
    obtain ⟨ha', haeq⟩ := List.getElem?_eq_some_iff.mp ha
    obtain ⟨hb', hbeq⟩ := List.getElem?_eq_some_iff.mp hb
    have := hp a b ha' hb' hab
    rw [haeq, hbeq, hnone] at this
    cases hr : pyRank order rb.1 with
    | none => rfl
    | some v => rw [hr] at this; exact absurd this (by simp [rankLe])

/-- Witness for C10: with the empty order both rows are unranked, the output
is a permutation of the input, and position 1 after an unranked position 0 is
unranked. -/
theorem reorder_labels_permutation_witness :
    (0 : Nat) < 1 ∧ pyRank [] "YY" = none ∧
    (reorder_labels [("XX", 1), ("YY", 2)] []).Perm
      [("XX", 1), ("YY", 2)] := by
  have h := reorder_labels_permutation [("XX", 1), ("YY", 2)] []
  exact ⟨by decide,
    h.2 0 1 ("XX", 1) ("YY", 2) (by decide) (by decide) (by decide)
      (by decide), h.1⟩

/-- C9 counterexample: the claim says a call to `reorder_labels` leaves the
caller's table with exactly the columns and values it had before, but line 47
adds the `subunit_rank` column to the caller's object in place and never
removes it from that object: after the call the caller's single row carries
the rank value 0. -/
theorem reorder_labels_mutates_caller :
    ¬ reorder_input_unchanged [("TT", 1)] ["TT"] ∧
    rankedRows [("TT", 1)] ["TT"] = [(("TT", 1), some 0)] := by
  unfold reorder_input_unchanged
  exact ⟨by decide, by decide⟩

/-- C9 amended: `reorder_labels` and `basepair_plot` leave the caller's
original key and payload columns untouched but each adds a helper column to
the caller's table that persists after the call — `subunit_rank` (the key's
rank in the supplied order, NaN if absent) for `reorder_labels`, and
`category` (characters 1-2 of the index key) for `basepair_plot`.  The table
returned by `reorder_labels` itself does not carry the helper column. -/
theorem helper_columns_persist (df data : List (String × Int))
    (order : List String) :
    (rankedRows df order).map (·.1) = df ∧
    (rankedRows df order).map (·.2) = df.map (fun r => pyRank order r.1) ∧
    (basepair_plot_caller data).map (·.1) = data ∧
    (basepair_plot_caller data).map (·.2) = data.map (fun r => pySlice13 r.1) := by
  refine ⟨?_, ?_, ?_, ?_⟩ <;>
    simp [rankedRows, basepair_plot_caller, List.map_map, Function.comp_def]

/-- C5: under the right-outer join of `bconf_heatmap` against the canonical
256-key tetramer order, every input table whose tetramer keys are unique and
drawn from that canonical set expands to exactly 256 rows, and every
canonical key absent from the input appears with the sentinel (NaN, "no
data") payload. -/
theorem bconf_expand_sentinel (df : List (String × Int))
    (h1 : (df.map (·.1)).Nodup)
    (h2 : ∀ r ∈ df, r.1 ∈ bconf_tetramer_order "T") :
    (bconf_tetramer_order "T").length = 256 ∧
    (merge_right df (bconf_tetramer_order "T")).length = 256 ∧
    ∀ k ∈ bconf_tetramer_order "T", k ∉ df.map (·.1) →
      (k, (none : Option Int)) ∈ merge_right df (bconf_tetramer_order "T") := by
  refine ⟨by decide, ?_, ?_⟩
  · unfold merge_right
    rw [length_flatMap_one]
    · decide
    · intro k _
      have hle := filter_key_len_le_one df k h1
      revert hle
      cases df.filter (fun r => r.1 == k) with
      | nil => intro _; rfl
      | cons a t =>
          cases t with
          | nil => intro _; rfl
          | cons b u =>
              intro hle
              exfalso
              simp only [List.length_cons] at hle
              omega
  · intro k hk hnk
    have hf : df.filter (fun r => r.1 == k) = [] := by
      rw [List.filter_eq_nil_iff]
      intro r hr hrk
      refine hnk ?_
      have : r.1 = k := by simpa using hrk
      rw [← this]
      exact List.mem_map_of_mem (·.1) hr
    unfold merge_right
    rw [List.mem_flatMap]
    refine ⟨k, hk, ?_⟩
    rw [hf]
    simp

/-- Witness for C5: a one-row table keyed "GGGG" (a canonical key) expands to
256 rows, with the absent canonical key "GGGA" carried as a sentinel row. -/
theorem bconf_expand_sentinel_witness :
    (([(("GGGG" : String), (3 : Int))]).map (·.1)).Nodup ∧
    (merge_right [("GGGG", 3)] (bconf_tetramer_order "T")).length = 256 ∧
    (("GGGA" : String), (none : Option Int)) ∈
      merge_right [("GGGG", 3)] (bconf_tetramer_order "T") := by
  have h := bconf_expand_sentinel [("GGGG", 3)] (by decide) (by decide)
  exact ⟨by decide, h.2.1, h.2.2 "GGGA" (by decide) (by decide)⟩

/-- C6, evaluated at the failing input: for coordinates {c, d} each carrying
units {u, v}, the combined-matrix row order computed by `correlation_plot`
(select by coordinate list, then `sort_index(level=1)` whose default
`sort_remaining=True` sorts by the inner unit first and the coordinate
second) is (c,u), (d,u), (c,v), (d,v): the coordinates interleave instead of
forming contiguous per-coordinate blocks as the claim — and the function's
own downstream tick labelling — requires. -/
theorem corr_order_interleaves_coords :
    corr_row_order ["c", "d"] [("c", "u"), ("c", "v"), ("d", "u"), ("d", "v")]
      = [("c", "u"), ("d", "u"), ("c", "v"), ("d", "v")] := by
  decide

/-- C7 counterexample: the claim says the combined matrix with K distinct
coordinates gets exactly K tick positions for every block size, but with
K = 2 coordinates of 2 units each (matrix size 4) the computation
`np.arange(4 // (2*2), 4 - 1, 2*(4 // (2*2)))` yields the single position
[1]: one tick, not two. -/
theorem corr_ticks_wrong_count :
    corr_ticks 4 2 = [1] ∧ (corr_ticks 4 2).length ≠ 2 := by
  constructor
  · decide
  · decide

/-- C7 amended: when the matrix size is K*B with an even per-coordinate block
size B ≥ 4, `correlation_plot` computes exactly K tick positions, the m-th at
`m*B + B/2` — strictly inside the m-th size-B block (between its first row
`m*B` and its last row `m*B + (B-1)`), half a row above the exact centre.
For odd block sizes or B = 2 the count or the interior placement fails (see
the counterexample), and the blocks the ticks address are not contiguous in
the actual matrix ordering in the first place. -/
theorem corr_ticks_even_blocks (K B : Nat) (hK : 0 < K) (hB2 : B % 2 = 0)
    (hB4 : 4 ≤ B) :
    (corr_ticks (K * B) K).length = K ∧
    ∀ m, m < K → (corr_ticks (K * B) K)[m]? = some (m * B + B / 2) ∧
      m * B < m * B + B / 2 ∧ m * B + B / 2 < m * B + (B - 1) := by
  obtain ⟨b, rfl⟩ : ∃ b, B = 2 * b := ⟨B / 2, by omega⟩
  have hb : 2 ≤ b := by omega
  have hbK : b ≤ K * b := Nat.le_mul_of_pos_left b hK
  have key : K * (2 * b) = 2 * (K * b) := by ring
  have hs : K * (2 * b) / (2 * K) = b := by
    rw [show K * (2 * b) = 2 * K * b by ring,
      Nat.mul_div_cancel_left b (by omega)]
  have hstart : b < K * (2 * b) - 1 := by rw [key]; omega
  have hnum : K * (2 * b) - 1 - b + 2 * b - 1 = 2 * b * K + (b - 2) := by
    rw [key, show 2 * b * K = 2 * (K * b) by ring]
    omega
  have hcount : (K * (2 * b) - 1 - b + 2 * b - 1) / (2 * b) = K := by
    rw [hnum, Nat.mul_add_div (by omega), Nat.div_eq_of_lt (by omega)]
    omega
  have hhalf : 2 * b / 2 = b := by omega
  unfold corr_ticks np_arange
  simp only [hs, if_pos hstart, hcount]
  refine ⟨by rw [List.length_map, List.length_range], ?_⟩
  intro m hm
  rw [List.getElem?_map, List.getElem?_range hm]
  refine ⟨?_, by omega, by omega⟩
  rw [hhalf]
  show some (b + m * (2 * b)) = some (m * (2 * b) + b)
  exact congrArg some (by omega)

/-- Witness for the C7 amended theorem at K = 1, B = 4. -/
theorem corr_ticks_even_blocks_witness :
    (0 : Nat) < 1 ∧ (4 : Nat) % 2 = 0 ∧ (4 : Nat) ≤ 4 ∧
    (corr_ticks (1 * 4) 1).length = 1 ∧
    (corr_ticks (1 * 4) 1)[0]? = some (0 * 4 + 4 / 2) := by
  have h := corr_ticks_even_blocks 1 4 (by decide) (by decide) (by decide)
  exact ⟨by decide, by decide, by decide, h.1, (h.2 0 (by decide)).1⟩

end Nassa
